import Mathlib

/-!
Verification of the core logic of `simple_streamlit_app.py` (repository
`bolteanos/app_gob`): catalog loading and normalization, the
filter/sort/reorder pipeline, API-URL and filename derivation, and the
download-and-companion-script workflow.  The tabular structure produced by
`pandas` is modelled as a list of column names together with rows of cells;
network and filesystem effects are modelled by explicit parameters and an
explicit filesystem state.
-/

/-- Cell models one value of the tabular structure produced by `pd.read_csv`:
either a missing value (NaN), a numeric value, or a text value. -/
inductive Cell where
  | null
  | num (v : Rat)
  | text (s : String)
deriving DecidableEq, Repr

/-- Table models a `pandas.DataFrame`: an ordered list of column labels and
rows of cells, each row aligned positionally with the labels. -/
structure Table where
  cols : List String
  rows : List (List Cell)
deriving DecidableEq, Repr

/-- Rect states tabular rectangularity: every row has exactly one cell per
column.  `pd.read_csv` always produces rectangular frames. -/
def Rect (t : Table) : Prop := ∀ r ∈ t.rows, r.length = t.cols.length

/-- cellAt looks a cell up by column label, walking labels and cells in
parallel; a label that is absent (or a row that is too short) yields the
missing value, like label lookup on a frame without that column. -/
def cellAt : List String → List Cell → String → Cell
  | [], _, _ => Cell.null
  | _ :: _, [], _ => Cell.null
  | c :: cs, v :: vs, key => if c = key then v else cellAt cs vs key

/-- setCol replaces the cell under a column label, the positional analogue of
the whole-column assignment `df[col] = ...`. -/
def setCol : List String → List Cell → String → Cell → List Cell
  | [], vs, _, _ => vs
  | _ :: _, [], _, _ => []
  | c :: cs, v :: vs, key, newv => if c = key then newv :: vs else v :: setCol cs vs key newv

/-- digitsVal reads a run of decimal digits as a natural number. -/
def digitsVal (l : List Char) : Nat := l.foldl (fun n c => 10 * n + (c.toNat - 48)) 0

/-- parseNum models the numeric coercion performed by
`pd.to_numeric(..., errors="coerce")` on a decimal numeral: an optional sign
followed by an integer part and an optional fractional part.  Strings outside
this decimal-numeral form coerce to `none` (NaN).  Scientific notation and
special floats are not modelled; no input of the development uses them. -/
def parseNum (s : String) : Option Rat :=
  let l := s.data
  let signRest : Bool × List Char :=
    match l with
    | '-' :: r => (true, r)
    | '+' :: r => (false, r)
    | r => (false, r)
  let neg := signRest.1
  let rest := signRest.2
  let intPart := rest.takeWhile Char.isDigit
  let rest2 := rest.dropWhile Char.isDigit
  match rest2 with
  | [] =>
      if intPart.isEmpty then none
      else some (if neg then -(digitsVal intPart : Rat) else (digitsVal intPart : Rat))
  | '.' :: frac =>
      if frac.all Char.isDigit && !(intPart.isEmpty && frac.isEmpty) then
        let v : Rat := (digitsVal intPart : Rat) + (digitsVal frac : Rat) / ((10 : Rat) ^ frac.length)
        some (if neg then -v else v)
      else none
  | _ => none

/-- toNumeric models `pd.to_numeric(x, errors="coerce")` on one cell: numbers
pass through, decimal-numeral text is parsed, everything else becomes NaN. -/
def toNumeric (c : Cell) : Option Rat :=
  match c with
  | Cell.null => none
  | Cell.num v => some v
  | Cell.text s => parseNum s

/-- coerceFill models `pd.to_numeric(x, errors="coerce").fillna(0)` on one
cell. -/
def coerceFill (c : Cell) : Cell := Cell.num ((toNumeric c).getD 0)

/-- splitOnChar splits a character list at every occurrence of a separator;
`n` separators yield `n + 1` fields. -/
def splitOnChar (sep : Char) (l : List Char) : List (List Char) :=
  l.foldr
    (fun c acc =>
      match acc with
      | [] => [[c]]
      | cur :: done => if c = sep then [] :: cur :: done else (c :: cur) :: done)
    [[]]

/-- fieldToCell models how `pd.read_csv` reads one raw field: an empty field
is missing (NaN), anything else is kept as text (its numeric interpretation
is the business of `toNumeric`). -/
def fieldToCell (f : List Char) : Cell :=
  if f.isEmpty then Cell.null else Cell.text (String.mk f)

/-- parseCsv models `pd.read_csv(..., on_bad_lines="skip")` on unquoted CSV
text: the first non-blank line names the columns, blank lines are skipped,
rows with more fields than the header are dropped (`on_bad_lines="skip"`),
and short rows are padded with missing values. -/
def parseCsv (s : String) : Table :=
  match (splitOnChar '\n' s.data).filter (fun l => !l.isEmpty) with
  | [] => { cols := [], rows := [] }
  | header :: rest =>
    let cols := (splitOnChar ',' header).map (fun f => String.mk f)
    { cols := cols,
      rows := rest.filterMap (fun line =>
        let fields := (splitOnChar ',' line).map fieldToCell
        if fields.length ≤ cols.length then
          some (fields ++ List.replicate (cols.length - fields.length) Cell.null)
        else none) }

/-- EMBEDDED_CSV is the fallback catalog `_EMBEDDED_CSV` of the source. -/
def EMBEDDED_CSV : String :=
  "serie_id,serie_titulo,dataset_tema,dataset_descripcion,serie_descripcion,consultas_90_dias\n"
    ++ "TEST123,Serie de ejemplo,Actividad,Dataset de prueba,Desc corta,999\n"

/-- normalizeConsultas models the post-parse normalization of `load_catalog`:
if the `consultas_90_dias` column is absent it is created with value 0,
otherwise every value of the column is coerced with
`pd.to_numeric(..., errors="coerce").fillna(0)`. -/
def normalizeConsultas (t : Table) : Table :=
  if "consultas_90_dias" ∈ t.cols then
    { cols := t.cols,
      rows := t.rows.map (fun r =>
        setCol t.cols r "consultas_90_dias"
          (coerceFill (cellAt t.cols r "consultas_90_dias"))) }
  else
    { cols := t.cols ++ ["consultas_90_dias"],
      rows := t.rows.map (fun r => r ++ [Cell.num 0]) }

/-- FetchResult models the outcome of the `requests.get` call on the catalog
URL: a successful body, or any failure (network error or non-success status,
which `raise_for_status` turns into an exception). -/
inductive FetchResult where
  | ok (body : String)
  | fail
deriving DecidableEq, Repr

/-- load_catalog models `load_catalog()`: when `requests` is unavailable or
the fetch fails the embedded CSV is used, otherwise the fetched body; the
result is parsed and its `consultas_90_dias` column normalized. -/
def load_catalog (requestsAvailable : Bool) (fetch : FetchResult) : Table :=
  let csv :=
    if requestsAvailable then
      match fetch with
      | FetchResult.ok body => body
      | FetchResult.fail => EMBEDDED_CSV
    else EMBEDDED_CSV
  normalizeConsultas (parseCsv csv)

/-- DownloadError models the failures of `download_series`: the explicit
`RuntimeError` raised when `requests` is unavailable, or a transport error
from `requests.get` / `raise_for_status`. -/
inductive DownloadError where
  | missingRequests
  | transport (msg : String)
deriving DecidableEq, Repr

/-- download_series models `download_series(url)`: the availability of
`requests` is checked explicitly before the network client is invoked; only
then is the GET performed. -/
def download_series (requestsAvailable : Bool) (get : String → Except String String)
    (url : String) : Except DownloadError String :=
  if requestsAvailable then
    match get url with
    | Except.ok body => Except.ok body
    | Except.error e => Except.error (DownloadError.transport e)
  else Except.error DownloadError.missingRequests

/-- isSlugChar recognises the character class `[a-z0-9]` of the fallback
`slugify`. -/
def isSlugChar (c : Char) : Bool := c.isLower || c.isDigit

/-- collapseRunsAux walks the characters carrying a flag that records
whether the previous character belonged to a run outside `[a-z0-9]` whose
dash has already been emitted. -/
def collapseRunsAux : Bool → List Char → List Char
  | _, [] => []
  | inRun, c :: cs =>
    if isSlugChar c then c :: collapseRunsAux false cs
    else if inRun then collapseRunsAux true cs
    else '-' :: collapseRunsAux true cs

/-- collapseRuns models `re.sub(r"[^a-z0-9]+", "-", ...)` on a lowercased
character list: every maximal run of characters outside `[a-z0-9]` becomes a
single dash. -/
def collapseRuns (l : List Char) : List Char := collapseRunsAux false l

/-- trimLeadDashes models the left half of `.strip("-")`. -/
def trimLeadDashes (l : List Char) : List Char := l.dropWhile (fun c => c == '-')

/-- dropDashEnds models `.strip("-")`: dashes are removed from both ends. -/
def dropDashEnds (l : List Char) : List Char :=
  (trimLeadDashes l).rdropWhile (fun c => c == '-')

/-- slugify models the fallback slug helper of the source:
`re.sub(r"[^a-z0-9]+", "-", txt.lower()).strip("-")`. -/
def slugify (txt : String) : String :=
  String.mk (dropDashEnds (collapseRuns (txt.data.map Char.toLower)))

/-- pyStrip models Python `str.strip()`: whitespace is removed from both
ends. -/
def pyStrip (s : String) : String :=
  String.mk ((s.data.dropWhile Char.isWhitespace).rdropWhile Char.isWhitespace)

/-- orNone models the Python idiom `s.strip() or None` applied to the date
text inputs. -/
def orNone (s : String) : Option String :=
  if pyStrip s = "" then none else some (pyStrip s)

/-- joinUnderscore models `"_".join(parts)`. -/
def joinUnderscore : List String → String
  | [] => ""
  | [s] => s
  | s :: rest => s ++ "_" ++ joinUnderscore rest

/-- deriveFname models the filename derivation of the download block: with at
least one date present the name is the slug, an underscore, the
underscore-joined present dates, and `.csv`; otherwise the slug and `.csv`. -/
def deriveFname (title startRaw endRaw : String) : String :=
  let startOpt := orNone startRaw
  let endOpt := orNone endRaw
  let base_slug := slugify title
  if startOpt.isSome || endOpt.isSome then
    let parts :=
      (match startOpt with
       | some s => [s]
       | none => []) ++
      (match endOpt with
       | some e => [e]
       | none => [])
    base_slug ++ "_" ++ joinUnderscore parts ++ ".csv"
  else
    base_slug ++ ".csv"

/-- script_name models `script_name = f"{base_slug}.py"`. -/
def script_name (title : String) : String := slugify title ++ ".py"

/-- hexUpper gives the uppercase hexadecimal digit of a value below 16. -/
def hexUpper (n : Nat) : Char :=
  if n < 10 then Char.ofNat (48 + n) else Char.ofNat (55 + n)

/-- utf8Bytes encodes a character list as its UTF-8 byte values. -/
def utf8Bytes (l : List Char) : List Nat :=
  l.flatMap (fun c =>
    let n := c.toNat
    if n < 0x80 then [n]
    else if n < 0x800 then [0xC0 + n / 64, 0x80 + n % 64]
    else if n < 0x10000 then [0xE0 + n / 4096, 0x80 + (n / 64) % 64, 0x80 + n % 64]
    else [0xF0 + n / 262144, 0x80 + (n / 4096) % 64, 0x80 + (n / 64) % 64, 0x80 + n % 64])

/-- quoteByteSafe recognises the bytes `urllib.parse.quote_plus` leaves
unescaped: ASCII letters, digits, and `_ . - ~`. -/
def quoteByteSafe (n : Nat) : Bool :=
  (65 ≤ n && n ≤ 90) || (97 ≤ n && n ≤ 122) || (48 ≤ n && n ≤ 57)
    || n == 95 || n == 46 || n == 45 || n == 126

/-- quotePlus models `urllib.parse.quote_plus`: safe bytes stay literal, a
space becomes `+`, every other UTF-8 byte is percent-encoded in uppercase
hexadecimal. -/
def quotePlus (s : String) : String :=
  String.mk ((utf8Bytes s.data).flatMap (fun n =>
    if quoteByteSafe n then [Char.ofNat n]
    else if n == 32 then ['+']
    else ['%', hexUpper (n / 16), hexUpper (n % 16)]))

/-- joinAmp models the `&`-joining of `urllib.parse.urlencode`. -/
def joinAmp : List String → String
  | [] => ""
  | [s] => s
  | s :: rest => s ++ "&" ++ joinAmp rest

/-- urlencode models `urllib.parse.urlencode` on an ordered parameter list. -/
def urlencode (ps : List (String × String)) : String :=
  joinAmp (ps.map (fun p => quotePlus p.1 ++ "=" ++ quotePlus p.2))

/-- API_BASE is the series endpoint constant of the source. -/
def API_BASE : String := "https://apis.datos.gob.ar/series/api/series?format=csv&"

/-- pyTruthy models Python truthiness of an optional string: `None` and the
empty string are falsy. -/
def pyTruthy (o : Option String) : Bool :=
  match o with
  | none => false
  | some s => !(s == "")

/-- build_api_url models `build_api_url`: the parameter dict is built in
insertion order with `ids` always present and the dates only when truthy,
then urlencoded after the base URL. -/
def build_api_url (serieId : String) (startOpt endOpt : Option String) : String :=
  let params :=
    [("ids", serieId)] ++
      (if pyTruthy startOpt then [("start_date", startOpt.getD "")] else []) ++
      (if pyTruthy endOpt then [("end_date", endOpt.getD "")] else [])
  API_BASE ++ urlencode params

/-- RTok is one compiled token of the regular-expression subset used to model
`pandas.Series.str.contains` (which passes the search text to `re.search`):
a literal character or the any-character metacharacter `.`. -/
inductive RTok where
  | lit (c : Char)
  | dot
deriving DecidableEq, Repr

/-- isRegexSpecial recognises the characters that are special in Python
regular expressions. -/
def isRegexSpecial (c : Char) : Bool :=
  c == '.' || c == '^' || c == '$' || c == '*' || c == '+' || c == '?'
    || c == '\\' || c == '[' || c == ']' || c == '\x7b' || c == '\x7d'
    || c == '(' || c == ')' || c == '|'

/-- compileTokens compiles a pattern into tokens: `.` becomes the
any-character token, every other character a literal.  The compilation (and
hence the model of `re.search`) is faithful exactly for patterns whose only
special character is `.`; all theorems below stay inside that subset. -/
def compileTokens (pat : List Char) : List RTok :=
  pat.map (fun c => if c = '.' then RTok.dot else RTok.lit c)

/-- tokMatches decides whether a token matches a character under
`re.IGNORECASE` (the effect of `case=False`): literals compare lowercased,
`.` matches everything except a newline. -/
def tokMatches (t : RTok) (c : Char) : Bool :=
  match t with
  | RTok.lit l => l.toLower == c.toLower
  | RTok.dot => !(c == '\n')

/-- matchHere decides whether the tokens match a prefix of the text. -/
def matchHere : List RTok → List Char → Bool
  | [], _ => true
  | _ :: _, [] => false
  | t :: ts, c :: cs => tokMatches t c && matchHere ts cs

/-- searchToks models `re.search`: the tokens may match starting at any
position of the text. -/
def searchToks (toks : List RTok) : List Char → Bool
  | [] => matchHere toks []
  | c :: cs => matchHere toks (c :: cs) || searchToks toks cs

/-- titleMatches models one row's test under
`filtered["serie_titulo"].str.contains(query, case=False, na=False)`: a
missing or non-text title never matches (`na=False`), a text title is
searched for the pattern case-insensitively. -/
def titleMatches (cols : List String) (r : List Cell) (query : String) : Bool :=
  match cellAt cols r "serie_titulo" with
  | Cell.text s => searchToks (compileTokens query.data) s.data
  | _ => false

/-- textFilter models the text-search step of the pipeline: an empty query
leaves the table untouched (`if query:`), otherwise only rows whose title
matches are kept. -/
def textFilter (t : Table) (query : String) : Table :=
  if query = "" then t
  else { cols := t.cols, rows := t.rows.filter (fun r => titleMatches t.cols r query) }

/-- lowerChars lowercases a character list. -/
def lowerChars (l : List Char) : List Char := l.map Char.toLower

/-- startsWithChars decides whether the first list is an initial run of the
second. -/
def startsWithChars : List Char → List Char → Bool
  | [], _ => true
  | _ :: _, [] => false
  | p :: ps, c :: cs => p == c && startsWithChars ps cs

/-- hasSubstr decides whether the first list occurs contiguously inside the
second. -/
def hasSubstr (pat : List Char) : List Char → Bool
  | [] => startsWithChars pat []
  | c :: cs => startsWithChars pat (c :: cs) || hasSubstr pat cs

/-- specSubstrFilter is the text filter as the specification words it
(second definition, for comparison with `textFilter`): keep exactly the rows
whose title contains the query as a case-insensitive substring, rows without
a text title never matching. -/
def specSubstrFilter (t : Table) (query : String) : Table :=
  if query = "" then t
  else
    { cols := t.cols,
      rows := t.rows.filter (fun r =>
        match cellAt t.cols r "serie_titulo" with
        | Cell.text s => hasSubstr (lowerChars query.data) (lowerChars s.data)
        | _ => false) }

/-- preferred_order is the fixed preferred column list of the source. -/
def preferred_order : List String :=
  ["consultas_90_dias", "dataset_descripcion", "dataset_fuente", "dataset_tema",
   "serie_indice_final", "serie_indice_inicio", "serie_unidades", "serie_valor_ultimo"]

/-- reorderCols models the column reordering:
`existing_preferred = [c for c in preferred_order if c in filtered.columns]`
followed by
`remaining_cols = [c for c in filtered.columns if c not in existing_preferred]`
and the concatenation of the two. -/
def reorderCols (preferred cols : List String) : List String :=
  let existingPreferred := preferred.filter (fun c => decide (c ∈ cols))
  let remainingCols := cols.filter (fun c => decide (c ∉ existingPreferred))
  existingPreferred ++ remainingCols

/-- selectCols models column selection `df[newCols]`: the new table holds,
for each row, the cells of the requested labels in the requested order. -/
def selectCols (t : Table) (newCols : List String) : Table :=
  { cols := newCols, rows := t.rows.map (fun r => newCols.map (fun c => cellAt t.cols r c)) }

/-- reorderTable models `filtered = filtered[existing_preferred + remaining_cols]`
with the fixed preferred list. -/
def reorderTable (t : Table) : Table :=
  selectCols t (reorderCols preferred_order t.cols)

/-- Msg models the sidebar reports the workflow emits. -/
inductive Msg where
  | savedOk (fname : String)
  | scriptCreated (sname : String)
  | scriptOk
  | scriptFailed (stderrText : String)
  | saveError (msg : String)
deriving DecidableEq, Repr

/-- isWorkflowError recognises the message of the `except` branch, the only
way the workflow reports a failure of the save action itself. -/
def isWorkflowError (m : Msg) : Bool :=
  match m with
  | Msg.saveError _ => true
  | _ => false

/-- FS models the filesystem state touched by the workflow: the downloads
directory and the scripts directory, each a finite map from file name to
content. -/
structure FS where
  downloads : List (String × String)
  scripts : List (String × String)
deriving DecidableEq, Repr

/-- getVal looks a file's content up by name. -/
def getVal : List (String × String) → String → Option String
  | [], _ => none
  | (k, v) :: rest, key => if k = key then some v else getVal rest key

/-- setEntry models writing a file: an existing entry is overwritten in
place, otherwise a new entry is created. -/
def setEntry : List (String × String) → String → String → List (String × String)
  | [], key, v => [(key, v)]
  | (k, w) :: rest, key, v =>
    if k = key then (key, v) :: rest else (k, w) :: setEntry rest key v

/-- countKey counts the entries carrying a name. -/
def countKey : List (String × String) → String → Nat
  | [], _ => 0
  | (k, _) :: rest, key => (if k = key then 1 else 0) + countKey rest key

/-- scriptTemplate is the companion-script text generated by the source,
parameterised by the script name, the series title and the creation date. -/
def scriptTemplate (sname title today : String) : String :=
  "# " ++ sname ++ "\n"
    ++ "# Script asociado a la serie \x27" ++ title ++ "\x27\n"
    ++ "# Creado el " ++ today ++ "\n\n"
    ++ "\"\"\"\n"
    ++ "¿Por qué necesito una ruta robusta en este contexto?\n"
    ++ "- Permite calcular rutas relativas al script, sin depender del directorio de ejecución.\n"
    ++ "- Usa os.path.dirname(__file__) para construir rutas siempre válidas.\n"
    ++ "- Evita errores al mover la app o cambiar de máquina.\n"
    ++ "\"\"\"\n\n"
    ++ "# Ejemplos de rutas robustas:\n"
    ++ "# base = os.path.splitext(os.path.basename(__file__))[0]\n"
    ++ "# output_dir = os.path.join(os.path.dirname(__file__), \x27series_transformadas\x27)\n"
    ++ "# os.makedirs(output_dir, exist_ok=True)\n"
    ++ "\n"
    ++ "\"\"\"\n"
    ++ "¿Qué son los requisitos?\n"
    ++ "- Son los requisitos necesarios para ejecutar este script.\n"
    ++ "- Ejemplos: serie IPC actualizada, un archivo o recurso determinado.\n"
    ++ "- SON OPCIONALES. Solo se mostrarán en la aplicación antes de que inicies la descarga.\n"
    ++ "\"\"\"\n\n"
    ++ "import os\nimport json\n\n"
    ++ "# Crear carpeta requisitos_script y JSON de requisitos vacío\n"
    ++ "base_dir = os.path.dirname(__file__)\n"
    ++ "requisitos_dir = os.path.join(base_dir, \x27requisitos_script\x27)\n"
    ++ "os.makedirs(requisitos_dir, exist_ok=True)\n\n"
    ++ "script_name = os.path.splitext(os.path.basename(__file__))[0]\n"
    ++ "json_path = os.path.join(requisitos_dir, f\"\x7bscript_name\x7d_requisitos.json\")\n\n"
    ++ "requisitos_data = \x7b\n"
    ++ "    \x27serie_titulo\x27: \"" ++ title ++ "\",\n"
    ++ "    \x27requisitos\x27: []\n"
    ++ "\x7d\n\n"
    ++ "with open(json_path, \x27w\x27, encoding=\x27utf-8\x27) as rf:\n"
    ++ "    json.dump(requisitos_data, rf, ensure_ascii=False, indent=4)\n"
    ++ "# ----------------------------------------------------------------------------------------------\n"
    ++ "# TODO: Agrega tus manipulaciones aquí\n"
    ++ "# ----------------------------------------------------------------------------------------------"

/-- describeError renders a download failure the way the source reports it. -/
def describeError (e : DownloadError) : String :=
  match e with
  | DownloadError.missingRequests => "Necesitas la librería *requests* para descargar las series."
  | DownloadError.transport m => m

/-- runSave models the server-side save workflow (the body of the
`Guardar en servidor` button): the fetched bytes are written to the
downloads directory under the derived filename, the companion script is
generated only when no script with the slug-derived name exists yet, and the
script is then executed, a non-zero exit being reported as a message.  The
download result, the current date and the script's exit code and standard
error are passed as parameters, standing for the external world.  A download
failure takes the `except` branch: the error is reported and the state is
untouched. -/
def runSave (fs : FS) (title startRaw endRaw : String)
    (dl : Except DownloadError String) (today : String)
    (exitCode : Int) (stderrText : String) : FS × List Msg :=
  match dl with
  | Except.error e => (fs, [Msg.saveError (describeError e)])
  | Except.ok content =>
    let fname := deriveFname title startRaw endRaw
    let fs1 : FS := { fs with downloads := setEntry fs.downloads fname content }
    let sname := script_name title
    let execMsg := if exitCode = 0 then Msg.scriptOk else Msg.scriptFailed stderrText
    if (getVal fs1.scripts sname).isSome then
      (fs1, [Msg.savedOk fname, execMsg])
    else
      ({ fs1 with scripts := setEntry fs1.scripts sname (scriptTemplate sname title today) },
       [Msg.savedOk fname, Msg.scriptCreated sname, execMsg])

/-- endsWithChars decides whether the first list is a final run of the
second. -/
def endsWithChars (pat s : List Char) : Bool := startsWithChars pat.reverse s.reverse

lemma getVal_setEntry_self (m : List (String × String)) (k v : String) :
    getVal (setEntry m k v) k = some v := by
  induction m with
  | nil => simp [setEntry, getVal]
  | cons p rest ih =>
    obtain ⟨k', w⟩ := p
    by_cases h : k' = k
    · simp [setEntry, getVal, h]
    · simp [setEntry, getVal, h, ih]

lemma countKey_setEntry_le (m : List (String × String)) (k v : String) :
    countKey (setEntry m k v) k ≤ countKey m k + 1 := by
  induction m with
  | nil => simp [setEntry, countKey]
  | cons p rest ih =>
    obtain ⟨k', w⟩ := p
    by_cases h : k' = k
    · simp [setEntry, countKey, h]
    · simp only [setEntry, countKey, if_neg h]
      omega

/-- C6: running the save workflow twice for the same series title writes the
companion script at most once: after the first run a script with the
slug-derived name exists, the second run leaves the scripts directory
exactly as the first run left it (no write, no overwrite), the number of
scripts with that name grows by at most one over the initial state, while
the downloaded CSV is rewritten by the second run with its own bytes. -/
theorem c6_script_idempotent :
    ∀ (fs : FS) (title sRaw eRaw c1 c2 d1 d2 st1 st2 : String) (e1 e2 : Int),
      (runSave (runSave fs title sRaw eRaw (Except.ok c1) d1 e1 st1).1
          title sRaw eRaw (Except.ok c2) d2 e2 st2).1.scripts
        = (runSave fs title sRaw eRaw (Except.ok c1) d1 e1 st1).1.scripts
      ∧ (getVal (runSave fs title sRaw eRaw (Except.ok c1) d1 e1 st1).1.scripts
          (script_name title)).isSome = true
      ∧ countKey (runSave (runSave fs title sRaw eRaw (Except.ok c1) d1 e1 st1).1
            title sRaw eRaw (Except.ok c2) d2 e2 st2).1.scripts (script_name title)
          ≤ countKey fs.scripts (script_name title) + 1
      ∧ getVal (runSave (runSave fs title sRaw eRaw (Except.ok c1) d1 e1 st1).1
            title sRaw eRaw (Except.ok c2) d2 e2 st2).1.downloads
          (deriveFname title sRaw eRaw) = some c2 := by
  intro fs title sRaw eRaw c1 c2 d1 d2 st1 st2 e1 e2
  have hstep : ∀ (g : FS) (c d st : String) (e : Int),
      (getVal (runSave g title sRaw eRaw (Except.ok c) d e st).1.scripts
          (script_name title)).isSome = true
      ∧ (runSave g title sRaw eRaw (Except.ok c) d e st).1.downloads
          = setEntry g.downloads (deriveFname title sRaw eRaw) c
      ∧ ((getVal g.scripts (script_name title)).isSome = true →
          (runSave g title sRaw eRaw (Except.ok c) d e st).1.scripts = g.scripts)
      ∧ countKey (runSave g title sRaw eRaw (Except.ok c) d e st).1.scripts
            (script_name title)
          ≤ countKey g.scripts (script_name title) + 1 := by
    intro g c d st e
    by_cases h : (getVal g.scripts (script_name title)).isSome = true
    · simp [runSave, h]
    · simp [runSave, h, getVal_setEntry_self, countKey_setEntry_le]
  obtain ⟨h1some, h1dl, h1stable, h1cnt⟩ := hstep fs c1 d1 st1 e1
  obtain ⟨h2some, h2dl, h2stable, h2cnt⟩ :=
    hstep (runSave fs title sRaw eRaw (Except.ok c1) d1 e1 st1).1 c2 d2 st2 e2
  have hscripts := h2stable h1some
  refine ⟨hscripts, h1some, ?_, ?_⟩
  · calc countKey (runSave (runSave fs title sRaw eRaw (Except.ok c1) d1 e1 st1).1
          title sRaw eRaw (Except.ok c2) d2 e2 st2).1.scripts (script_name title)
        = countKey (runSave fs title sRaw eRaw (Except.ok c1) d1 e1 st1).1.scripts
            (script_name title) := by rw [hscripts]
      _ ≤ countKey fs.scripts (script_name title) + 1 := h1cnt
  · rw [h2dl, getVal_setEntry_self]

set_option maxRecDepth 100000 in
/-- C7: with the network client unavailable, `download_series` fails with the
distinct missing-capability error, independently of the GET function --- the
check precedes any network call --- while `load_catalog` does not fail: it
falls back to the embedded dataset and returns a non-empty table whose
columns include the embedded minimal schema. -/
theorem c7_missing_requests :
    ∀ (get : String → Except String String) (url : String) (fetch : FetchResult),
      download_series false get url = Except.error DownloadError.missingRequests
      ∧ (load_catalog false fetch).rows ≠ []
      ∧ "serie_id" ∈ (load_catalog false fetch).cols
      ∧ "serie_titulo" ∈ (load_catalog false fetch).cols
      ∧ "dataset_tema" ∈ (load_catalog false fetch).cols
      ∧ "consultas_90_dias" ∈ (load_catalog false fetch).cols := by
  intro get url fetch
  have hfall : load_catalog false fetch = normalizeConsultas (parseCsv EMBEDDED_CSV) := rfl
  rw [hfall]
  refine ⟨rfl, ?_, ?_, ?_, ?_, ?_⟩ <;> decide

/-- C8: when the companion script exits non-zero after a successful save, the
failure is only reported: the script-failure message carrying the captured
standard error appears among the reports, the success report of the save is
still present, no workflow-failure (`except`-branch) message is emitted, and
the downloaded CSV remains stored under the derived filename. -/
theorem c8_script_failure_warning :
    ∀ (fs : FS) (title sRaw eRaw content today stderrText : String) (exitCode : Int),
      exitCode ≠ 0 →
      getVal (runSave fs title sRaw eRaw (Except.ok content) today exitCode stderrText).1.downloads
          (deriveFname title sRaw eRaw) = some content
      ∧ Msg.scriptFailed stderrText
          ∈ (runSave fs title sRaw eRaw (Except.ok content) today exitCode stderrText).2
      ∧ Msg.savedOk (deriveFname title sRaw eRaw)
          ∈ (runSave fs title sRaw eRaw (Except.ok content) today exitCode stderrText).2
      ∧ (runSave fs title sRaw eRaw (Except.ok content) today exitCode stderrText).2.filter
          isWorkflowError = [] := by
  intro fs title sRaw eRaw content today stderrText exitCode h
  by_cases hscript : (getVal fs.scripts (script_name title)).isSome = true <;>
    simp [runSave, hscript, h, isWorkflowError, getVal_setEntry_self]

/-- c8_witness instantiates `c8_script_failure_warning` on a concrete state
and exit code 1. -/
theorem c8_witness :
    getVal (runSave (FS.mk [] []) "Serie" "" "" (Except.ok "bytes") "2026-10-12" 1 "boom").1.downloads
        (deriveFname "Serie" "" "") = some "bytes"
    ∧ Msg.scriptFailed "boom"
        ∈ (runSave (FS.mk [] []) "Serie" "" "" (Except.ok "bytes") "2026-10-12" 1 "boom").2
    ∧ Msg.savedOk (deriveFname "Serie" "" "")
        ∈ (runSave (FS.mk [] []) "Serie" "" "" (Except.ok "bytes") "2026-10-12" 1 "boom").2
    ∧ (runSave (FS.mk [] []) "Serie" "" "" (Except.ok "bytes") "2026-10-12" 1 "boom").2.filter
        isWorkflowError = [] :=
  c8_script_failure_warning (FS.mk [] []) "Serie" "" "" "bytes" "2026-10-12" "boom" 1
    (by decide)

/-- C9: `build_api_url` is a total function of its arguments whose result is
fully characterised: the base URL followed by `ids=<id URL-encoded>` always,
then `start_date` and `end_date` pairs exactly when the respective argument
is truthy (present and non-empty), in that order, URL-encoded.  On the
concrete inputs of the specification: `build_api_url "ABC"` ends with
`ids=ABC` and contains neither date key, and with both dates the result
contains `ids=ABC`, `start_date=2020-01-01` and `end_date=2020-02-01`. -/
theorem c9_build_api_url :
    (∀ (serieId : String) (startOpt endOpt : Option String),
        build_api_url serieId startOpt endOpt =
          API_BASE ++ ("ids=" ++ quotePlus serieId)
            ++ (if pyTruthy startOpt then "&start_date=" ++ quotePlus (startOpt.getD "") else "")
            ++ (if pyTruthy endOpt then "&end_date=" ++ quotePlus (endOpt.getD "") else ""))
    ∧ endsWithChars "ids=ABC".data (build_api_url "ABC" none none).data = true
    ∧ hasSubstr "start_date".data (build_api_url "ABC" none none).data = false
    ∧ hasSubstr "end_date".data (build_api_url "ABC" none none).data = false
    ∧ hasSubstr "ids=ABC".data
        (build_api_url "ABC" (some "2020-01-01") (some "2020-02-01")).data = true
    ∧ hasSubstr "start_date=2020-01-01".data
        (build_api_url "ABC" (some "2020-01-01") (some "2020-02-01")).data = true
    ∧ hasSubstr "end_date=2020-02-01".data
        (build_api_url "ABC" (some "2020-01-01") (some "2020-02-01")).data = true := by
  refine ⟨?_, by decide, by decide, by decide, by decide, by decide, by decide⟩
  intro serieId startOpt endOpt
  have hids : quotePlus "ids" = "ids" := by decide
  have hsd : quotePlus "start_date" = "start_date" := by decide
  have hed : quotePlus "end_date" = "end_date" := by decide
  cases hs : pyTruthy startOpt <;> cases he : pyTruthy endOpt <;>
    simp only [build_api_url, urlencode, joinAmp, hs, he, hids, hsd, hed,
      List.map_cons, List.map_nil, List.append_nil, List.nil_append,
      List.cons_append, if_pos, if_neg, Bool.false_eq_true, not_false_iff,
      ite_false, ite_true, String.append_assoc, String.append_empty]
  all_goals rfl

lemma cellAt_nil_row (cols : List String) (c : String) : cellAt cols [] c = Cell.null := by
  cases cols <;> rfl

lemma cellAt_map_self (newCols : List String) (f : String → Cell) (c : String)
    (h : c ∈ newCols) : cellAt newCols (newCols.map f) c = f c := by
  induction newCols with
  | nil => cases h
  | cons a as ih =>
    simp only [List.map_cons, cellAt]
    by_cases hac : a = c
    · subst hac; simp
    · rw [if_neg hac]
      exact ih (by cases h with
        | head => exact absurd rfl hac
        | tail _ hmem => exact hmem)

lemma reorderCols_eq_filter (preferred cols : List String) :
    reorderCols preferred cols =
      preferred.filter (fun c => decide (c ∈ cols))
        ++ cols.filter (fun c => decide (c ∉ preferred)) := by
  have hz : reorderCols preferred cols
      = preferred.filter (fun c => decide (c ∈ cols))
        ++ cols.filter (fun c =>
            decide (c ∉ preferred.filter (fun c => decide (c ∈ cols)))) := rfl
  rw [hz]
  congr 1
  apply List.filter_congr
  intro x hx
  simp only [decide_eq_decide, List.mem_filter, decide_eq_true_iff]
  constructor
  · intro h hp; exact h ⟨hp, hx⟩
  · intro h hmem; exact h hmem.1

lemma mem_reorderCols (preferred cols : List String) (c : String) (h : c ∈ cols) :
    c ∈ reorderCols preferred cols := by
  rw [reorderCols_eq_filter, List.mem_append]
  by_cases hp : c ∈ preferred
  · exact Or.inl (List.mem_filter.mpr ⟨hp, by simpa using h⟩)
  · exact Or.inr (List.mem_filter.mpr ⟨h, by simpa using hp⟩)

/-- C3: the column-reordering step is a pure permutation of the columns when
the column labels are distinct (as they are for any parsed catalog), it
equals the preferred labels present in the table, in the preferred list's
order, followed by the other labels in their original relative order, it
leaves every row's content per label untouched, and on preferred columns
`[A, C]` with input columns `[B, C, A, D]` it yields `[A, C, B, D]`. -/
theorem c3_reorder_permutation :
    (∀ (preferred cols : List String), preferred.Nodup → cols.Nodup →
        (reorderCols preferred cols).Perm cols)
    ∧ (∀ (preferred cols : List String),
        reorderCols preferred cols =
          preferred.filter (fun c => decide (c ∈ cols))
            ++ cols.filter (fun c => decide (c ∉ preferred)))
    ∧ (∀ (t : Table) (i : Nat) (c : String), c ∈ t.cols →
        cellAt (reorderTable t).cols ((reorderTable t).rows.getD i []) c
          = cellAt t.cols (t.rows.getD i []) c)
    ∧ reorderCols ["A", "C"] ["B", "C", "A", "D"] = ["A", "C", "B", "D"] := by
  refine ⟨?_, reorderCols_eq_filter, ?_, by decide⟩
  · intro preferred cols hp hc
    rw [reorderCols_eq_filter]
    have hnodup : (preferred.filter (fun c => decide (c ∈ cols))
        ++ cols.filter (fun c => decide (c ∉ preferred))).Nodup := by
      refine (hp.filter _).append (hc.filter _) ?_
      intro x hx1 hx2
      have h1 := (List.mem_filter.mp hx1).2
      have h2 := (List.mem_filter.mp hx2).2
      simp only [decide_eq_true_iff] at h1 h2
      exact h2 (List.mem_filter.mp hx1).1
    refine (List.perm_ext_iff_of_nodup hnodup hc).mpr ?_
    intro a
    simp only [List.mem_append, List.mem_filter, decide_eq_true_iff]
    by_cases hap : a ∈ preferred
    · constructor
      · rintro (⟨_, h⟩ | ⟨h, _⟩) <;> exact h
      · intro h; exact Or.inl ⟨hap, h⟩
    · constructor
      · rintro (⟨h, _⟩ | ⟨h, _⟩)
        · exact absurd h hap
        · exact h
      · intro h; exact Or.inr ⟨h, hap⟩
  · intro t i c hc
    unfold reorderTable selectCols
    simp only
    have hmem : c ∈ reorderCols preferred_order t.cols := mem_reorderCols _ _ _ hc
    by_cases hi : i < t.rows.length
    · have hmap : (t.rows.map (fun r =>
          (reorderCols preferred_order t.cols).map (fun c => cellAt t.cols r c))).getD i []
          = (reorderCols preferred_order t.cols).map
              (fun cc => cellAt t.cols (t.rows.getD i []) cc) := by
        rw [List.getD_eq_getElem?_getD, List.getElem?_map,
          List.getElem?_eq_getElem hi]
        simp [List.getD_eq_getElem?_getD, List.getElem?_eq_getElem hi]
      rw [hmap, cellAt_map_self _ _ _ hmem]
    · have h1 : (t.rows.map (fun r =>
          (reorderCols preferred_order t.cols).map (fun c => cellAt t.cols r c))).getD i [] = [] := by
        rw [List.getD_eq_getElem?_getD, List.getElem?_eq_none (by simpa using Nat.le_of_not_lt hi)]
        rfl
      have h2 : t.rows.getD i [] = [] := by
        rw [List.getD_eq_getElem?_getD, List.getElem?_eq_none (Nat.le_of_not_lt hi)]
        rfl
      rw [h1, h2, cellAt_nil_row, cellAt_nil_row]

/-- T3 is a two-column sample table for the reorder witness. -/
def T3 : Table := Table.mk ["serie_id", "consultas_90_dias"] [[Cell.text "X", Cell.num 1]]

/-- c3_witness instantiates `c3_reorder_permutation` on concrete column lists
and a concrete table. -/
theorem c3_witness :
    (reorderCols ["A", "C"] ["B", "C", "A", "D"]).Perm ["B", "C", "A", "D"]
    ∧ cellAt (reorderTable T3).cols ((reorderTable T3).rows.getD 0 []) "serie_id"
        = cellAt T3.cols (T3.rows.getD 0 []) "serie_id" :=
  ⟨c3_reorder_permutation.1 ["A", "C"] ["B", "C", "A", "D"] (by decide) (by decide),
   c3_reorder_permutation.2.2.1 T3 0 "serie_id" (by decide)⟩

lemma collapseRunsAux_mem (l : List Char) :
    ∀ (b : Bool) (c : Char), c ∈ collapseRunsAux b l → isSlugChar c = true ∨ c = '-' := by
  induction l with
  | nil => intro b c hc; simp [collapseRunsAux] at hc
  | cons d ds ih =>
    intro b c hc
    by_cases hd : isSlugChar d
    · rw [collapseRunsAux, if_pos hd] at hc
      cases hc with
      | head => exact Or.inl hd
      | tail _ hmem => exact ih false c hmem
    · rw [collapseRunsAux, if_neg hd] at hc
      cases b with
      | true => exact ih true c (by simpa using hc)
      | false =>
        simp only [Bool.false_eq_true, if_neg] at hc
        cases hc with
        | head => exact Or.inr rfl
        | tail _ hmem => exact ih true c hmem

lemma collapseRuns_mem (l : List Char) :
    ∀ c ∈ collapseRuns l, isSlugChar c = true ∨ c = '-' :=
  fun c hc => collapseRunsAux_mem l false c hc

lemma collapseRunsAux_head_true (l : List Char) :
    ∀ c, (collapseRunsAux true l).head? = some c → isSlugChar c = true := by
  induction l with
  | nil => intro c hc; cases hc
  | cons d ds ih =>
    intro c hc
    by_cases hd : isSlugChar d
    · rw [collapseRunsAux, if_pos hd] at hc
      have : d = c := by simpa using hc
      rw [← this]; exact hd
    · rw [collapseRunsAux, if_neg hd] at hc
      exact ih c (by simpa using hc)

lemma collapseRunsAux_chain (l : List Char) :
    ∀ b : Bool, (collapseRunsAux b l).Chain' (fun a b => ¬(a = '-' ∧ b = '-')) := by
  induction l with
  | nil => intro b; simp [collapseRunsAux]
  | cons d ds ih =>
    intro b
    by_cases hd : isSlugChar d
    · rw [collapseRunsAux, if_pos hd]
      refine List.chain'_cons'.mpr ⟨?_, ih false⟩
      intro y _ hab
      rw [hab.1] at hd
      exact absurd hd (by decide)
    · rw [collapseRunsAux, if_neg hd]
      cases b with
      | true => simpa using ih true
      | false =>
        simp only [Bool.false_eq_true, if_neg]
        refine List.chain'_cons'.mpr ⟨?_, ih true⟩
        intro y hy hab
        have := collapseRunsAux_head_true ds y hy
        rw [hab.2] at this
        exact absurd this (by decide)

lemma collapseRuns_chain (l : List Char) :
    (collapseRuns l).Chain' (fun a b => ¬(a = '-' ∧ b = '-')) :=
  collapseRunsAux_chain l false

lemma dropDashEnds_mem (l : List Char) : ∀ x ∈ dropDashEnds l, x ∈ l := by
  intro x hx
  have h1 : x ∈ trimLeadDashes l := by
    have hpre := List.rdropWhile_prefix (fun c => c == '-') (l := trimLeadDashes l)
    exact hpre.subset hx
  exact List.dropWhile_subset _ h1

lemma dropDashEnds_chain (l : List Char)
    (h : l.Chain' (fun a b : Char => ¬(a = '-' ∧ b = '-'))) :
    (dropDashEnds l).Chain' (fun a b => ¬(a = '-' ∧ b = '-')) := by
  have hm : (trimLeadDashes l).Chain' (fun a b : Char => ¬(a = '-' ∧ b = '-')) :=
    h.suffix (List.dropWhile_suffix _)
  have h2 : ((trimLeadDashes l).reverse).Chain'
      (flip (fun a b : Char => ¬(a = '-' ∧ b = '-'))) :=
    List.chain'_reverse.mpr hm
  have h3 : (((trimLeadDashes l).reverse.dropWhile (fun c => c == '-'))).Chain'
      (flip (fun a b : Char => ¬(a = '-' ∧ b = '-'))) :=
    h2.suffix (List.dropWhile_suffix _)
  exact List.chain'_reverse.mpr h3

lemma dropDashEnds_head (l : List Char)
    (h : (trimLeadDashes l).head? ≠ some '-') :
    (dropDashEnds l).head? ≠ some '-' := by
  intro hc
  cases hd : dropDashEnds l with
  | nil => rw [hd] at hc; cases hc
  | cons x xs =>
    rw [hd] at hc
    have hx : x = '-' := by simpa using hc
    have hpre := List.rdropWhile_prefix (fun c => c == '-') (l := trimLeadDashes l)
    rw [dropDashEnds] at hd
    rw [hd] at hpre
    obtain ⟨t, ht⟩ := hpre
    apply h
    rw [← ht, hx]
    rfl

lemma dropDashEnds_last (l : List Char) : (dropDashEnds l).getLast? ≠ some '-' := by
  intro hc
  rw [dropDashEnds, List.rdropWhile, List.getLast?_reverse] at hc
  have := List.head?_dropWhile_not (fun c => c == '-') (trimLeadDashes l).reverse
  rw [hc] at this
  simp at this

lemma trimLeadDashes_head (l : List Char) : (trimLeadDashes l).head? ≠ some '-' := by
  intro hc
  have := List.head?_dropWhile_not (fun c => c == '-') l
  rw [trimLeadDashes] at hc
  rw [hc] at this
  simp at this

/-- C5: the output filename is the slug of the title followed by the present
date parts joined with underscores and `.csv` when at least one date is
present, and just the slug and `.csv` otherwise; the slug itself contains
only lowercase alphanumerics and single separators, with no leading or
trailing separator and no two consecutive separators; in particular the
title `Serie de Ejemplo!!` with only a start date gives
`serie-de-ejemplo_2020-01-01.csv`. -/
theorem c5_filename_derivation :
    (∀ (title s e : String), pyStrip s = "" → pyStrip e = "" →
        deriveFname title s e = slugify title ++ ".csv")
    ∧ (∀ (title s e : String), pyStrip s ≠ "" → pyStrip e = "" →
        deriveFname title s e = slugify title ++ "_" ++ pyStrip s ++ ".csv")
    ∧ (∀ (title s e : String), pyStrip s = "" → pyStrip e ≠ "" →
        deriveFname title s e = slugify title ++ "_" ++ pyStrip e ++ ".csv")
    ∧ (∀ (title s e : String), pyStrip s ≠ "" → pyStrip e ≠ "" →
        deriveFname title s e = slugify title ++ "_" ++ pyStrip s ++ "_" ++ pyStrip e ++ ".csv")
    ∧ (∀ title : String,
        (∀ c ∈ (slugify title).data, isSlugChar c = true ∨ c = '-')
        ∧ (slugify title).data.Chain' (fun a b => ¬(a = '-' ∧ b = '-'))
        ∧ (slugify title).data.head? ≠ some '-'
        ∧ (slugify title).data.getLast? ≠ some '-')
    ∧ deriveFname "Serie de Ejemplo!!" "2020-01-01" "" = "serie-de-ejemplo_2020-01-01.csv" := by
  refine ⟨?_, ?_, ?_, ?_, ?_, by decide⟩
  · intro title s e h1 h2
    simp [deriveFname, orNone, joinUnderscore, h1, h2]
  · intro title s e h1 h2
    simp [deriveFname, orNone, joinUnderscore, h1, h2]
  · intro title s e h1 h2
    simp [deriveFname, orNone, joinUnderscore, h1, h2]
  · intro title s e h1 h2
    simp [deriveFname, orNone, joinUnderscore, h1, h2, String.append_assoc]
  · intro title
    have hdata : (slugify title).data
        = dropDashEnds (collapseRuns (title.data.map Char.toLower)) := rfl
    rw [hdata]
    exact ⟨fun c hc => collapseRuns_mem _ c (dropDashEnds_mem _ c hc),
      dropDashEnds_chain _ (collapseRuns_chain _),
      dropDashEnds_head _ (trimLeadDashes_head _),
      dropDashEnds_last _⟩

/-- c5_witness instantiates `c5_filename_derivation` on the specification's
example title with only a start date. -/
theorem c5_witness :
    deriveFname "Serie de Ejemplo!!" "2020-01-01" "" =
      slugify "Serie de Ejemplo!!" ++ "_" ++ pyStrip "2020-01-01" ++ ".csv" :=
  c5_filename_derivation.2.1 "Serie de Ejemplo!!" "2020-01-01" "" (by decide) (by decide)

lemma collapseRunsAux_true_nil (l : List Char)
    (h : ∀ c ∈ l, isSlugChar c = false) : collapseRunsAux true l = [] := by
  induction l with
  | nil => rfl
  | cons d ds ih =>
    rw [collapseRunsAux, if_neg (by simp [h d (List.mem_cons_self d ds)]), if_pos rfl]
    exact ih (fun c hc => h c (List.mem_cons_of_mem d hc))

lemma slugify_eq_empty (title : String)
    (h : ∀ c ∈ title.data, isSlugChar c.toLower = false) : slugify title = "" := by
  unfold slugify
  have hall : ∀ c ∈ title.data.map Char.toLower, isSlugChar c = false := by
    intro c hc
    obtain ⟨d, hd, rfl⟩ := List.mem_map.mp hc
    exact h d hd
  cases hl : title.data.map Char.toLower with
  | nil => rfl
  | cons d ds =>
    rw [hl] at hall
    have hcoll : collapseRuns (d :: ds) = ['-'] := by
      rw [collapseRuns, collapseRunsAux,
        if_neg (by simp [hall d (List.mem_cons_self d ds)]), if_neg (by simp),
        collapseRunsAux_true_nil ds (fun c hc => hall c (List.mem_cons_of_mem d hc))]
    rw [hcoll]
    rfl

/-- C10: a title with no character in `[a-z0-9]` after lowercasing slugifies
to the empty string, so its derived dateless download filename is exactly
`.csv` and its companion-script name is exactly `.py`; all such titles
therefore share one download file and one companion script. -/
theorem c10_empty_slug :
    ∀ title : String, (∀ c ∈ title.data, isSlugChar c.toLower = false) →
      slugify title = ""
      ∧ deriveFname title "" "" = ".csv"
      ∧ script_name title = ".py"
      ∧ ∀ title2 : String, (∀ c ∈ title2.data, isSlugChar c.toLower = false) →
          deriveFname title "" "" = deriveFname title2 "" ""
          ∧ script_name title = script_name title2 := by
  intro title h
  have hslug := slugify_eq_empty title h
  have hfname : deriveFname title "" "" = ".csv" := by
    have hstep : deriveFname title "" "" = slugify title ++ ".csv" := rfl
    rw [hstep, hslug]
    rfl
  have hscript : script_name title = ".py" := by
    rw [script_name, hslug]
    rfl
  refine ⟨hslug, hfname, hscript, ?_⟩
  intro title2 h2
  have hslug2 := slugify_eq_empty title2 h2
  constructor
  · rw [hfname]
    have hstep2 : deriveFname title2 "" "" = slugify title2 ++ ".csv" := rfl
    rw [hstep2, hslug2]
    rfl
  · rw [hscript, script_name, hslug2]
    rfl

/-- c10_witness instantiates `c10_empty_slug` on the all-punctuation title
`!!!`. -/
theorem c10_witness :
    slugify "!!!" = "" ∧ deriveFname "!!!" "" "" = ".csv" ∧ script_name "!!!" = ".py" :=
  ⟨(c10_empty_slug "!!!" (by decide)).1, (c10_empty_slug "!!!" (by decide)).2.1,
    (c10_empty_slug "!!!" (by decide)).2.2.1⟩

lemma parseCsv_rect (s : String) : Rect (parseCsv s) := by
  unfold parseCsv
  cases hsplit : (splitOnChar '\n' s.data).filter (fun l => !l.isEmpty) with
  | nil => intro r hr; cases hr
  | cons header rest =>
    intro r hr
    simp only at hr ⊢
    obtain ⟨line, _, hline⟩ := List.mem_filterMap.mp hr
    by_cases hle : ((splitOnChar ',' line).map fieldToCell).length
        ≤ ((splitOnChar ',' header).map (fun f => String.mk f)).length
    · rw [if_pos hle] at hline
      have := Option.some.inj hline
      rw [← this, List.length_append, List.length_replicate]
      omega
    · rw [if_neg hle] at hline
      cases hline

lemma rows_map_getD (rows : List (List Cell)) (f : List Cell → List Cell)
    (i : Nat) (hi : i < rows.length) :
    (rows.map f).getD i [] = f (rows.getD i []) := by
  rw [List.getD_eq_getElem?_getD, List.getElem?_map, List.getElem?_eq_getElem hi]
  simp [List.getD_eq_getElem?_getD, List.getElem?_eq_getElem hi]

lemma cellAt_setCol (cols : List String) (r : List Cell) (k : String) (v : Cell)
    (hk : k ∈ cols) (hlen : r.length = cols.length) :
    cellAt cols (setCol cols r k v) k = v := by
  induction cols generalizing r with
  | nil => cases hk
  | cons c cs ih =>
    cases r with
    | nil => simp at hlen
    | cons w ws =>
      by_cases hck : c = k
      · rw [setCol, if_pos hck, cellAt, if_pos hck]
      · rw [setCol, if_neg hck, cellAt, if_neg hck]
        have hk' : k ∈ cs := by
          cases hk with
          | head => exact absurd rfl hck
          | tail _ hmem => exact hmem
        exact ih ws hk' (by simpa using hlen)

lemma cellAt_append_last (cols : List String) (r : List Cell) (k : String) (v : Cell)
    (hk : k ∉ cols) (hlen : r.length = cols.length) :
    cellAt (cols ++ [k]) (r ++ [v]) k = v := by
  induction cols generalizing r with
  | nil =>
    have : r = [] := List.length_eq_zero.mp (by simpa using hlen)
    rw [this]
    simp [cellAt]
  | cons c cs ih =>
    cases r with
    | nil => simp at hlen
    | cons w ws =>
      have hck : c ≠ k := fun h => hk (h ▸ List.mem_cons_self c cs)
      rw [List.cons_append, List.cons_append, cellAt, if_neg hck]
      exact ih ws (fun h => hk (List.mem_cons_of_mem c h)) (by simpa using hlen)

lemma cellAt_not_mem (cols : List String) (r : List Cell) (k : String)
    (hk : k ∉ cols) : cellAt cols r k = Cell.null := by
  induction cols generalizing r with
  | nil => rfl
  | cons c cs ih =>
    cases r with
    | nil => rfl
    | cons w ws =>
      have hck : c ≠ k := fun h => hk (h ▸ List.mem_cons_self c cs)
      rw [cellAt, if_neg hck]
      exact ih ws (fun h => hk (List.mem_cons_of_mem c h))

lemma normalize_consultas_exists (t : Table) (hrect : Rect t) :
    "consultas_90_dias" ∈ (normalizeConsultas t).cols
    ∧ ∀ r ∈ (normalizeConsultas t).rows, ∃ q : Rat,
        cellAt (normalizeConsultas t).cols r "consultas_90_dias" = Cell.num q := by
  by_cases hmem : "consultas_90_dias" ∈ t.cols
  · rw [normalizeConsultas, if_pos hmem]
    refine ⟨hmem, ?_⟩
    intro r hr
    obtain ⟨r0, hr0, rfl⟩ := List.mem_map.mp hr
    exact ⟨(toNumeric (cellAt t.cols r0 "consultas_90_dias")).getD 0,
      cellAt_setCol t.cols r0 _ _ hmem (hrect r0 hr0)⟩
  · rw [normalizeConsultas, if_neg hmem]
    refine ⟨by simp, ?_⟩
    intro r hr
    obtain ⟨r0, hr0, rfl⟩ := List.mem_map.mp hr
    exact ⟨0, cellAt_append_last t.cols r0 _ _ hmem (hrect r0 hr0)⟩

/-- C1 (amended): after `load_catalog` the `consultas_90_dias` column always
exists and every one of its values is a number (no null and no non-numeric
value), and the normalization acts pointwise as
`pd.to_numeric(..., errors="coerce").fillna(0)`: each stored value is the
numeric coercion of the raw cell with coercion failures (and the cells of a
created column) becoming 0.  Negative numeric source values are preserved,
see the counterexample. -/
theorem c1_consultas_numeric_after_load :
    (∀ (avail : Bool) (fetch : FetchResult),
        "consultas_90_dias" ∈ (load_catalog avail fetch).cols
        ∧ ∀ r ∈ (load_catalog avail fetch).rows, ∃ q : Rat,
            cellAt (load_catalog avail fetch).cols r "consultas_90_dias" = Cell.num q)
    ∧ (∀ t : Table, Rect t → ∀ i : Nat, i < t.rows.length →
        cellAt (normalizeConsultas t).cols ((normalizeConsultas t).rows.getD i [])
            "consultas_90_dias"
          = Cell.num ((toNumeric (cellAt t.cols (t.rows.getD i [])
              "consultas_90_dias")).getD 0)) := by
  constructor
  · intro avail fetch
    cases avail with
    | false => exact normalize_consultas_exists _ (parseCsv_rect EMBEDDED_CSV)
    | true =>
      cases fetch with
      | ok body => exact normalize_consultas_exists _ (parseCsv_rect body)
      | fail => exact normalize_consultas_exists _ (parseCsv_rect EMBEDDED_CSV)
  · intro t hrect i hi
    have hr0 : t.rows.getD i [] ∈ t.rows := by
      rw [List.getD_eq_getElem?_getD, List.getElem?_eq_getElem hi]
      exact List.getElem_mem hi
    have hlen := hrect _ hr0
    by_cases hmem : "consultas_90_dias" ∈ t.cols
    · rw [normalizeConsultas, if_pos hmem]
      simp only
      rw [rows_map_getD _ _ i hi]
      exact cellAt_setCol t.cols _ _ _ hmem hlen
    · rw [normalizeConsultas, if_neg hmem]
      simp only
      rw [rows_map_getD _ _ i hi, cellAt_append_last t.cols _ _ _ hmem hlen,
        cellAt_not_mem t.cols _ _ hmem]
      rfl

/-- consultasNonNegative is the claim's full invariant as stated: every row
holds a numeric, non-negative query count. -/
def consultasNonNegative (t : Table) : Prop :=
  ∀ r ∈ t.rows, ∃ q : Rat, cellAt t.cols r "consultas_90_dias" = Cell.num q ∧ 0 ≤ q

set_option maxRecDepth 100000 in
/-- c1_negative_counterexample refutes the non-negativity part of C1 as
stated: a fetched catalog whose `consultas_90_dias` value is `-5` loads to a
table whose query count is the negative number `-5`; the coercion never
clamps negative values. -/
theorem c1_negative_counterexample :
    ¬ consultasNonNegative
        (load_catalog true (FetchResult.ok "serie_id,consultas_90_dias\nX,-5\n")) := by
  intro hclaim
  have hrow := hclaim [Cell.text "X", Cell.num (-5)] (by decide)
  obtain ⟨q, hq, hge⟩ := hrow
  have hcell : cellAt
      (load_catalog true (FetchResult.ok "serie_id,consultas_90_dias\nX,-5\n")).cols
      [Cell.text "X", Cell.num (-5)] "consultas_90_dias" = Cell.num (-5) := by decide
  rw [hcell] at hq
  have hq5 : (-5 : Rat) = q := by injection hq
  rw [← hq5] at hge
  norm_num at hge

/-- T1 is a one-column sample table whose query-count cell fails numeric
coercion. -/
def T1 : Table := Table.mk ["consultas_90_dias"] [[Cell.text "abc"]]

/-- c1_witness instantiates `c1_consultas_numeric_after_load` on `T1`: the
uncoercible text becomes the number 0. -/
theorem c1_witness :
    cellAt (normalizeConsultas T1).cols ((normalizeConsultas T1).rows.getD 0 [])
        "consultas_90_dias"
      = Cell.num ((toNumeric (cellAt T1.cols (T1.rows.getD 0 [])
          "consultas_90_dias")).getD 0) :=
  c1_consultas_numeric_after_load.2 T1 (by unfold Rect; decide) 0 (by decide)

lemma matchHere_plain (pat : List Char)
    (hplain : ∀ c ∈ pat, isRegexSpecial c = false) :
    ∀ s : List Char,
      matchHere (compileTokens pat) s = startsWithChars (lowerChars pat) (lowerChars s) := by
  induction pat with
  | nil => intro s; cases s <;> rfl
  | cons p ps ih =>
    intro s
    have hpdot : ¬(p = '.') := by
      intro h
      have := hplain p (List.mem_cons_self p ps)
      rw [h] at this
      exact absurd this (by decide)
    have hcomp : compileTokens (p :: ps) = RTok.lit p :: compileTokens ps := by
      simp [compileTokens, hpdot]
    cases s with
    | nil => rw [hcomp]; rfl
    | cons c cs =>
      rw [hcomp]
      show ((p.toLower == c.toLower) && matchHere (compileTokens ps) cs)
        = ((p.toLower == c.toLower) && startsWithChars (lowerChars ps) (lowerChars cs))
      rw [ih (fun x hx => hplain x (List.mem_cons_of_mem p hx)) cs]

lemma searchToks_plain (pat : List Char)
    (hplain : ∀ c ∈ pat, isRegexSpecial c = false) :
    ∀ s : List Char,
      searchToks (compileTokens pat) s = hasSubstr (lowerChars pat) (lowerChars s) := by
  intro s
  induction s with
  | nil => exact matchHere_plain pat hplain []
  | cons c cs ih =>
    show (matchHere (compileTokens pat) (c :: cs) || searchToks (compileTokens pat) cs)
      = (startsWithChars (lowerChars pat) (lowerChars (c :: cs))
          || hasSubstr (lowerChars pat) (lowerChars cs))
    rw [matchHere_plain pat hplain (c :: cs), ih]

/-- C4 (amended): the text filter hands the search text to
`pandas.Series.str.contains` with its default `regex=True`, so the text is
interpreted as a case-insensitive regular expression; for search texts with
no regex metacharacter the filter keeps exactly the rows whose title
contains the text as a case-insensitive substring, rows without a text title
never match, and the empty search text removes no row. -/
theorem c4_text_filter_amended :
    (∀ t : Table, textFilter t "" = t)
    ∧ (∀ (t : Table) (q : String), (∀ c ∈ q.data, isRegexSpecial c = false) →
        textFilter t q = specSubstrFilter t q)
    ∧ (∀ (t : Table) (q : String), q ≠ "" → ∀ r ∈ (textFilter t q).rows,
        ∃ s : String, cellAt t.cols r "serie_titulo" = Cell.text s) := by
  refine ⟨?_, ?_, ?_⟩
  · intro t
    rw [textFilter, if_pos rfl]
  · intro t q hq
    unfold textFilter specSubstrFilter
    by_cases hq0 : q = ""
    · rw [if_pos hq0, if_pos hq0]
    · rw [if_neg hq0, if_neg hq0]
      congr 1
      apply List.filter_congr
      intro r _
      unfold titleMatches
      cases cellAt t.cols r "serie_titulo" with
      | null => rfl
      | num v => rfl
      | text s => exact searchToks_plain q.data hq s.data
  · intro t q hq r hr
    rw [textFilter, if_neg hq] at hr
    have hmatch := (List.mem_filter.mp hr).2
    unfold titleMatches at hmatch
    cases hcell : cellAt t.cols r "serie_titulo" with
    | null => rw [hcell] at hmatch; simp at hmatch
    | num v => rw [hcell] at hmatch; simp at hmatch
    | text s => exact ⟨s, rfl⟩

/-- T4 is a one-row sample table whose title is `xyz`. -/
def T4 : Table := Table.mk ["serie_titulo"] [[Cell.text "xyz"]]

/-- c4_regex_counterexample refutes C4 as stated: for the search text `.`
the implemented filter (a regular-expression search, `regex=True` being the
`str.contains` default) keeps the title `xyz`, while a literal
case-insensitive substring filter would drop it. -/
theorem c4_regex_counterexample : textFilter T4 "." ≠ specSubstrFilter T4 "." := by
  decide

/-- c4_witness instantiates `c4_text_filter_amended` on metacharacter-free
search texts over `T4`. -/
theorem c4_witness :
    textFilter T4 "abc" = specSubstrFilter T4 "abc"
    ∧ ∃ s : String, cellAt T4.cols [Cell.text "xyz"] "serie_titulo" = Cell.text s :=
  ⟨c4_text_filter_amended.2.1 T4 "abc" (by decide),
   c4_text_filter_amended.2.2 T4 "x" (by decide) [Cell.text "xyz"] (by decide)⟩
